import Mathlib

/-!
Shallow embedding of the oopsie-daisy recovery core: the signature catalog and
chunk scanner of `advanced_recovery.py`, the quality scorer and parallel scan
loop of `accelerated_scanner.py`, and the restore path of `file_recovery.py`.
Byte strings are lists of byte values, Python floats are modelled as rationals
with exact arithmetic, and filesystem state is an explicit association list
from path to file size.  The MD5 digest used only to build display names is
abstracted as an explicit function parameter.
-/

set_option maxHeartbeats 1000000
set_option maxRecDepth 100000

namespace OopsieDaisy

/-- A byte string, as in Python `bytes`: a list of byte values. -/
abbrev Bytes := List Nat

/-- Mirror of the dataclass `FileSignature` in `advanced_recovery.py`. -/
structure FileSignature where
  extension : String
  mimeType : String
  header : Bytes
  footer : Option Bytes
  maxSize : Nat
  description : String
  deriving DecidableEq

/-- Mirror of the `RecoveredFile` dataclass in `advanced_recovery.py`.
Float timestamps and the quality score are modelled as rationals. -/
structure RecoveredFile where
  name : String
  path : String
  size : Nat
  fileType : String
  signature : Option FileSignature
  quality : ℚ
  previewAvailable : Bool := false
  recoverable : Bool := true
  createdTime : Option ℚ := none
  modifiedTime : Option ℚ := none
  deletedTime : Option ℚ := none
  deriving DecidableEq

/-- The `FILE_SIGNATURES` table of `AdvancedRecoveryEngine`, transcribed
byte for byte in declaration order. -/
def FILE_SIGNATURES : List FileSignature := [
  ⟨"jpg", "image/jpeg", [0xFF, 0xD8, 0xFF], some [0xFF, 0xD9], 50 * 1024 * 1024, "JPEG Image"⟩,
  ⟨"png", "image/png", [0x89, 0x50, 0x4E, 0x47, 0x0D, 0x0A, 0x1A, 0x0A],
    some [0x00, 0x00, 0x00, 0x00, 0x49, 0x45, 0x4E, 0x44, 0xAE, 0x42, 0x60, 0x82],
    50 * 1024 * 1024, "PNG Image"⟩,
  ⟨"gif", "image/gif", [0x47, 0x49, 0x46, 0x38], none, 20 * 1024 * 1024, "GIF Image"⟩,
  ⟨"bmp", "image/bmp", [0x42, 0x4D], none, 50 * 1024 * 1024, "Bitmap Image"⟩,
  ⟨"tiff", "image/tiff", [0x49, 0x49, 0x2A, 0x00], none, 100 * 1024 * 1024, "TIFF Image"⟩,
  ⟨"webp", "image/webp", [0x52, 0x49, 0x46, 0x46], some [0x57, 0x45, 0x42, 0x50],
    20 * 1024 * 1024, "WebP Image"⟩,
  ⟨"pdf", "application/pdf", [0x25, 0x50, 0x44, 0x46, 0x2D], some [0x25, 0x25, 0x45, 0x4F, 0x46],
    500 * 1024 * 1024, "PDF Document"⟩,
  ⟨"docx", "application/vnd.openxmlformats-officedocument.wordprocessingml.document",
    [0x50, 0x4B, 0x03, 0x04], none, 100 * 1024 * 1024, "Word Document"⟩,
  ⟨"xlsx", "application/vnd.openxmlformats-officedocument.spreadsheetml.sheet",
    [0x50, 0x4B, 0x03, 0x04], none, 100 * 1024 * 1024, "Excel Spreadsheet"⟩,
  ⟨"pptx", "application/vnd.openxmlformats-officedocument.presentationml.presentation",
    [0x50, 0x4B, 0x03, 0x04], none, 100 * 1024 * 1024, "PowerPoint Presentation"⟩,
  ⟨"rtf", "application/rtf", [0x7B, 0x5C, 0x72, 0x74, 0x66, 0x31], some [0x7D],
    50 * 1024 * 1024, "Rich Text Document"⟩,
  ⟨"zip", "application/zip", [0x50, 0x4B, 0x03, 0x04], none, 1000 * 1024 * 1024, "ZIP Archive"⟩,
  ⟨"rar", "application/x-rar-compressed", [0x52, 0x61, 0x72, 0x21, 0x1A, 0x07, 0x00], none,
    1000 * 1024 * 1024, "RAR Archive"⟩,
  ⟨"7z", "application/x-7z-compressed", [0x37, 0x7A, 0xBC, 0xAF, 0x27, 0x1C], none,
    1000 * 1024 * 1024, "7-Zip Archive"⟩,
  ⟨"tar", "application/x-tar", [0x75, 0x73, 0x74, 0x61, 0x72], none,
    1000 * 1024 * 1024, "TAR Archive"⟩,
  ⟨"mp3", "audio/mpeg", [0x49, 0x44, 0x33], none, 100 * 1024 * 1024, "MP3 Audio"⟩,
  ⟨"mp4", "video/mp4", [0x00, 0x00, 0x00, 0x18, 0x66, 0x74, 0x79, 0x70, 0x6D, 0x70, 0x34], none,
    2000 * 1024 * 1024, "MP4 Video"⟩,
  ⟨"avi", "video/x-msvideo", [0x52, 0x49, 0x46, 0x46], some [0x41, 0x56, 0x49, 0x20],
    2000 * 1024 * 1024, "AVI Video"⟩,
  ⟨"mov", "video/quicktime", [0x00, 0x00, 0x00, 0x14, 0x66, 0x74, 0x79, 0x70], none,
    2000 * 1024 * 1024, "QuickTime Video"⟩,
  ⟨"wav", "audio/wav", [0x52, 0x49, 0x46, 0x46], some [0x57, 0x41, 0x56, 0x45],
    200 * 1024 * 1024, "WAV Audio"⟩,
  ⟨"flac", "audio/flac", [0x66, 0x4C, 0x61, 0x43], none, 200 * 1024 * 1024, "FLAC Audio"⟩,
  ⟨"exe", "application/x-msdownload", [0x4D, 0x5A], none, 500 * 1024 * 1024, "Windows Executable"⟩,
  ⟨"dll", "application/x-msdownload", [0x4D, 0x5A], none, 100 * 1024 * 1024, "Windows DLL"⟩,
  ⟨"msi", "application/x-msi", [0xD0, 0xCF, 0x11, 0xE0, 0xA1, 0xB1, 0x1A, 0xE1], none,
    500 * 1024 * 1024, "Windows Installer"⟩,
  ⟨"sqlite", "application/x-sqlite3",
    [0x53, 0x51, 0x4C, 0x69, 0x74, 0x65, 0x20, 0x66, 0x6F, 0x72, 0x6D, 0x61, 0x74, 0x20, 0x33, 0x00],
    none, 1000 * 1024 * 1024, "SQLite Database"⟩,
  ⟨"pst", "application/vnd.ms-outlook", [0x21, 0x42, 0x44, 0x4E], none,
    2000 * 1024 * 1024, "Outlook PST File"⟩]

/-- One insertion step of a Python dict build: an existing key keeps its
position but its value is overwritten; a new key is appended. -/
def dictInsert (m : List (Bytes × FileSignature)) (k : Bytes) (v : FileSignature) :
    List (Bytes × FileSignature) :=
  if m.any (fun p => p.1 == k) then
    m.map (fun p => if p.1 == k then (p.1, v) else p)
  else m ++ [(k, v)]

/-- Mirror of `self.signature_map = {sig.header: sig for sig in self.FILE_SIGNATURES}`:
a Python dict comprehension, so on duplicate headers the last declaration wins. -/
def signatureMap : List (Bytes × FileSignature) :=
  FILE_SIGNATURES.foldl (fun m s => dictInsert m s.header s) []

/-- Mirror of the Python slice comparison `chunk[i:i+len(pat)] == pat`. -/
def sliceEq (chunk : Bytes) (i : Nat) (pat : Bytes) : Bool :=
  (chunk.drop i).take pat.length == pat

/-- Mirror of Python `chunk.find(pat, start)`: the least index `j ≥ start` at which
`pat` occurs in full, or `none` (Python returns `-1`). -/
def bytesFind (chunk pat : Bytes) (start : Nat) : Option Nat :=
  (List.range (chunk.length + 1)).find?
    (fun j => decide (start ≤ j) && decide (j + pat.length ≤ chunk.length) && sliceEq chunk j pat)

/-- Mirror of `AdvancedRecoveryEngine._extract_file_from_signature`.  The MD5
hex digest used for the display name is abstracted as the `digest` parameter;
everything else follows the source line by line. -/
def extractFileFromSignature (digest : Bytes → String) (chunk : Bytes)
    (chunkOffset fileOffset : Nat) (sig : FileSignature) : Option RecoveredFile :=
  let size : Nat :=
    match sig.footer with
    | some f =>
      match bytesFind chunk f chunkOffset with
      | some footerPos => footerPos - chunkOffset + f.length
      | none => min sig.maxSize (chunk.length - chunkOffset)
    | none => min sig.maxSize (min (chunk.length - chunkOffset) (1024 * 1024))
  some {
    name := "recovered_" ++ digest ((chunk.drop chunkOffset).take (min size 1024)) ++ "." ++ sig.extension
    path := "offset_" ++ toString fileOffset
    size := size
    fileType := sig.extension
    signature := some sig
    quality := 7/10
    recoverable := true
    previewAvailable := ["jpg", "png", "gif", "bmp", "txt", "pdf"].contains sig.extension }

/-- Mirror of `AdvancedRecoveryEngine._find_signatures_in_chunk`: the scanned
offsets are `range(len(chunk) - 10)`, and at each offset every entry of the
signature dict is tested by slice comparison. -/
def findSignaturesInChunk (digest : Bytes → String) (chunk : Bytes) (offset : Nat) :
    List RecoveredFile :=
  (List.range (chunk.length - 10)).flatMap (fun i =>
    signatureMap.filterMap (fun p =>
      if sliceEq chunk i p.1 then extractFileFromSignature digest chunk i (offset + i) p.2
      else none))

/-- The catalog lookup performed by the chunk scanner at one offset: all
signature-dict entries whose header bytes match the buffer there, in dict
iteration order. -/
def headerMatchesAt (chunk : Bytes) (i : Nat) : List FileSignature :=
  (signatureMap.filter (fun p => sliceEq chunk i p.1)).map (fun p => p.2)

/-- Declaration index of a signature in the catalog (position of its first
occurrence in `FILE_SIGNATURES`). -/
def declIndex (s : FileSignature) : Nat := FILE_SIGNATURES.indexOf s

/-! Quality scoring, from `accelerated_scanner.py`. -/

/-- ASCII lowercasing, as Python `str.lower` on the ASCII file names involved. -/
def lowerChars (l : List Char) : List Char := l.map Char.toLower

/-- The fixed valuable-extension set of `_calculate_recovery_score`. -/
def valuableExtensions : List (List Char) :=
  [".doc".toList, ".docx".toList, ".pdf".toList, ".txt".toList,
   ".jpg".toList, ".png".toList, ".mp4".toList, ".zip".toList]

/-- Python `filename.startswith('.')`. -/
def startsWithDot (filename : String) : Bool :=
  match filename.toList with
  | c :: _ => c == '.'
  | [] => false

/-- Substring test: `pat` occurs contiguously in `l`, as Python `pat in s`. -/
def containsSub (pat l : List Char) : Bool :=
  (List.range (l.length + 1)).any (fun j => (l.drop j).take pat.length == pat)

/-- Python `'cache' in filename.lower()`. -/
def containsCache (filename : String) : Bool :=
  containsSub "cache".toList (lowerChars filename.toList)

/-- Python `any(filename.lower().endswith(ext) for ext in valuable_extensions)`. -/
def hasValuableExtension (filename : String) : Bool :=
  valuableExtensions.any (fun ext => ext.isSuffixOf (lowerChars filename.toList))

/-- Python `min` on rationals, written with a computable conditional. -/
def ratMin (a b : ℚ) : ℚ := if a ≤ b then a else b

/-- Python `max` on rationals, written with a computable conditional. -/
def ratMax (a b : ℚ) : ℚ := if a ≤ b then b else a

/-- Mirror of `AcceleratedFileScanner._calculate_recovery_score`.  The stat
result enters only through the file age `now - mtime`, taken here as the
`ageSeconds` argument; the size argument is unused by the source as well. -/
def calculateRecoveryScore (filename : String) (size : Nat) (ageSeconds : ℚ) : ℚ :=
  let score : ℚ := 1/2
  let ageDays : ℚ := ageSeconds / 86400
  let score : ℚ :=
    if ageDays < 1 then score + 3/10
    else if ageDays < 7 then score + 2/10
    else if ageDays < 30 then score + 1/10
    else score
  let score : ℚ := if hasValuableExtension filename then score + 1/5 else score
  let score : ℚ := if startsWithDot filename || containsCache filename then score - 1/5 else score
  ratMax 0 (ratMin 1 score)

/-- The spec's decomposition of the score: base 0.5, plus an age-bracket bonus
stated on seconds, plus 0.2 for a valuable extension, minus 0.2 for hidden or
cache names, clamped to the unit interval. -/
def scoreExistingSpec (filename : String) (ageSeconds : ℚ) : ℚ :=
  let ageBonus : ℚ :=
    if ageSeconds < 86400 then 3/10
    else if ageSeconds < 7 * 86400 then 2/10
    else if ageSeconds < 30 * 86400 then 1/10
    else 0
  let extBonus : ℚ := if hasValuableExtension filename then 1/5 else 0
  let penalty : ℚ := if startsWithDot filename || containsCache filename then 1/5 else 0
  ratMax 0 (ratMin 1 (1/2 + ageBonus + extBonus - penalty))

/-- Last catalog entry declared with a given header (what a Python dict build
keeps as the value for that key). -/
def lastDeclaredWith (h : Bytes) : Option FileSignature :=
  (FILE_SIGNATURES.filter (fun t => t.header == h)).getLast?

/-! Filesystem model: an association list from path to file size, plus an
explicit trace of the read/write actions an operation performs. -/

/-- One observable filesystem access. -/
inductive FSAction where
  | readPath (p : String)
  | writePath (p : String)
  deriving DecidableEq

/-- Filesystem state: the existing files with their sizes. -/
structure SimpleFS where
  entries : List (String × Nat)
  deriving DecidableEq

/-- Whether a path exists in the filesystem. -/
def SimpleFS.containsPath (fs : SimpleFS) (p : String) : Bool :=
  fs.entries.any (fun e => e.1 == p)

/-- Size of the file at a path (0 if absent). -/
def SimpleFS.fileSize (fs : SimpleFS) (p : String) : Nat :=
  ((fs.entries.find? (fun e => e.1 == p)).map Prod.snd).getD 0

/-- Create or overwrite a file. -/
def SimpleFS.insertFile (fs : SimpleFS) (p : String) (n : Nat) : SimpleFS :=
  if fs.containsPath p then ⟨fs.entries.map (fun e => if e.1 == p then (e.1, n) else e)⟩
  else ⟨fs.entries ++ [(p, n)]⟩

/-- Mirror of `shutil.copy2(src, dst)`: opening the source is a read; if it
exists its bytes are written to `dst`, otherwise the call raises. -/
def copy2 (fs : SimpleFS) (src dst : String) : Bool × SimpleFS × List FSAction :=
  if fs.containsPath src then
    (true, fs.insertFile dst (fs.fileSize src), [FSAction.readPath src, FSAction.writePath dst])
  else (false, fs, [FSAction.readPath src])

/-- Mirror of `AdvancedRecoveryEngine._recover_raw_file`: writes the
placeholder text and reports success. -/
def recoverRawFile (fs : SimpleFS) (fileInfo : RecoveredFile) (outputFile : String) :
    Bool × SimpleFS × List FSAction :=
  (true,
   fs.insertFile outputFile ("Placeholder for recovered file: ".length + fileInfo.name.length),
   [FSAction.writePath outputFile])

/-- Mirror of `AdvancedRecoveryEngine.recover_file`: raw recovery when a
signature is present, otherwise a plain `shutil.copy2`; exceptions become a
`false` result. -/
def recoverFile (fs : SimpleFS) (fileInfo : RecoveredFile) (outputPath : String) :
    Bool × SimpleFS × List FSAction :=
  let outputFile := outputPath ++ "/" ++ fileInfo.name
  match fileInfo.signature with
  | some _ => recoverRawFile fs fileInfo outputFile
  | none => copy2 fs fileInfo.path outputFile

/-! The restore path of `file_recovery.py`. -/

/-- Decimal digit to character. -/
def digitChar (d : Nat) : Char := Char.ofNat (48 + d)

/-- Most-significant-first decimal digits of `n`, by fuel-bounded recursion
(any fuel of at least `n` steps yields all digits). -/
def toDigitsAux : Nat → Nat → List Char
  | 0, _ => []
  | Nat.succ fuel, n => if n = 0 then [] else toDigitsAux fuel (n / 10) ++ [digitChar (n % 10)]

/-- Decimal rendering of a natural number, as Python `str(n)`. -/
def natChars (n : Nat) : List Char :=
  if n = 0 then ['0'] else toDigitsAux n n

/-- Decimal rendering as a string. -/
def natStr (n : Nat) : String := String.mk (natChars n)

/-- Index of the last '.' in a name, as Python `name.rfind('.')` when a dot
exists. -/
def lastDotIdx (l : List Char) : Option Nat :=
  ((List.range l.length).filter (fun j => l.getD j ' ' == '.')).getLast?

/-- Where pathlib splits stem from suffix: at the last '.' when it is neither
the first nor the last character (the rule of `PurePath.stem/suffix`),
otherwise at the end of the name (empty suffix). -/
def pySplitIdx (l : List Char) : Nat :=
  match lastDotIdx l with
  | some i => if 0 < i ∧ i < l.length - 1 then i else l.length
  | none => l.length

/-- Mirror of `pathlib.PurePath.stem` on a final path component. -/
def pyStem (name : String) : String :=
  String.mk (name.toList.take (pySplitIdx name.toList))

/-- Mirror of `pathlib.PurePath.suffix` on a final path component. -/
def pySuffix (name : String) : String :=
  String.mk (name.toList.drop (pySplitIdx name.toList))

/-- The destination file name tried at collision-resolution step `n` by
`FileRecoveryEngine.restore_file`: the original name for `n = 0`, then
`stem_recovered_<n>suffix`. -/
def candName (name : String) : Nat → String
  | 0 => name
  | Nat.succ k => pyStem name ++ "_recovered_" ++ natStr (k + 1) ++ pySuffix name

/-- The destination path tried at step `n`. -/
def candPath (destDir name : String) (n : Nat) : String :=
  destDir ++ "/" ++ candName name n

/-- The `while dest_path.exists()` loop of `restore_file`, with enough fuel to
pass every occupied candidate (the candidates are pairwise distinct, so at
most `fs.entries.length` of them can be occupied). -/
def findFreeIdx (fs : SimpleFS) (destDir name : String) : Nat → Nat → Nat
  | 0, k => k
  | Nat.succ fuel, k =>
    if fs.containsPath (candPath destDir name k) then findFreeIdx fs destDir name fuel (k + 1)
    else k

/-- The tail of `restore_file`: `shutil.copy2` to the resolved destination,
then `return True` only if the destination exists with size above zero. -/
def restoreCopy (fs : SimpleFS) (destPath : String) (v : Nat) : Bool × SimpleFS :=
  if (fs.insertFile destPath v).containsPath destPath
      && decide (0 < (fs.insertFile destPath v).fileSize destPath) then
    (true, fs.insertFile destPath v)
  else (false, fs.insertFile destPath v)

/-- Mirror of `FileRecoveryEngine.restore_file`: fail if the source is gone,
resolve a destination-name collision by counting up `_recovered_<n>` names,
copy, then report success only after checking that the destination exists
with positive size.  (`file_info` enters through its `name` and `path`
fields; directory creation is not represented in the path-to-size model.) -/
def restoreFile (fs : SimpleFS) (name srcPath destDir : String) : Bool × SimpleFS :=
  if fs.containsPath srcPath then
    restoreCopy fs (candPath destDir name (findFreeIdx fs destDir name (fs.entries.length + 1) 0))
      (fs.fileSize srcPath)
  else (false, fs)

/-! The bounded directory walk `AdvancedRecoveryEngine._scan_directory_optimized`. -/

/-- Metadata of one file found during a walk. -/
structure FileMeta where
  fname : String
  fsize : Nat
  ctime : ℚ
  mtime : ℚ
  deriving DecidableEq

mutual
inductive DirTree where
  | node : List FileMeta → DirForest → DirTree
  deriving DecidableEq
inductive DirForest where
  | fnil : DirForest
  | fcons : String → DirTree → DirForest → DirForest
  deriving DecidableEq
end

/-- The previewable-suffix set of `_scan_directory_optimized`. -/
def previewSuffixes : List (List Char) :=
  [".jpg".toList, ".jpeg".toList, ".png".toList, ".gif".toList, ".bmp".toList, ".txt".toList]

/-- Mirror of `file_path.suffix.lower().lstrip('.') or 'unknown'`. -/
def walkFileType (fname : String) : String :=
  let stripped := (lowerChars (pySuffix fname).toList).dropWhile (fun c => c == '.')
  if stripped.isEmpty then "unknown" else String.mk stripped

/-- Mirror of `file_path.suffix.lower() in ['.jpg', '.jpeg', '.png', '.gif', '.bmp', '.txt']`. -/
def walkPreview (fname : String) : Bool :=
  previewSuffixes.contains (lowerChars (pySuffix fname).toList)

/-- Path of a walked file: root path components, the directory components
relative to the root, then the file name. -/
def joinPath (rootParts rel : List String) (fname : String) : String :=
  String.intercalate "/" (rootParts ++ rel ++ [fname])

/-- The `RecoveredFile` that `_scan_directory_optimized` appends for a file at
relative directory `rel` under the walk root. -/
def mkWalkEntry (rootParts rel : List String) (f : FileMeta) : RecoveredFile :=
  { name := f.fname
    path := joinPath rootParts rel f.fname
    size := f.fsize
    fileType := walkFileType f.fname
    signature := none
    quality := 9/10
    recoverable := true
    createdTime := some f.ctime
    modifiedTime := some f.mtime
    previewAvailable := walkPreview f.fname }

/-- One filename iteration of `_scan_directory_optimized`: append the entry
when `0 < size < 100 MiB`, else keep the accumulator. -/
def walkStep (rootParts rel : List String) (f : FileMeta) (acc : List RecoveredFile) :
    List RecoveredFile :=
  if 0 < f.fsize ∧ f.fsize < 100 * 1024 * 1024 then acc ++ [mkWalkEntry rootParts rel f]
  else acc

/-- The per-directory filename loop of `_scan_directory_optimized`: after each
file, return the whole walk (`Bool` = stop) as soon as 100 entries have
accumulated. -/
def walkFiles (rootParts rel : List String) (files : List FileMeta) (acc : List RecoveredFile) :
    List RecoveredFile × Bool :=
  match files with
  | [] => (acc, false)
  | f :: rest =>
    if 100 ≤ (walkStep rootParts rel f acc).length then (walkStep rootParts rel f acc, true)
    else walkFiles rootParts rel rest (walkStep rootParts rel f acc)

mutual
/-- Depth-first `os.walk` of `_scan_directory_optimized`: files of the current
directory first, then the subdirectories — which are pruned (`dirs[:] = []`)
once the current depth relative to the root reaches `max_depth = 3`. -/
def walkDir (rootParts : List String) :
    DirTree → List String → List RecoveredFile → List RecoveredFile × Bool
  | DirTree.node files ds, rel, acc =>
    if (walkFiles rootParts rel files acc).2 then ((walkFiles rootParts rel files acc).1, true)
    else if 3 ≤ rel.length then ((walkFiles rootParts rel files acc).1, false)
    else walkForest rootParts ds rel (walkFiles rootParts rel files acc).1
/-- Walk the subdirectories in order, stopping as soon as the 100-entry cap
fired inside one of them. -/
def walkForest (rootParts : List String) :
    DirForest → List String → List RecoveredFile → List RecoveredFile × Bool
  | DirForest.fnil, _, acc => (acc, false)
  | DirForest.fcons dname d rest, rel, acc =>
    if (walkDir rootParts d (rel ++ [dname]) acc).2 then
      ((walkDir rootParts d (rel ++ [dname]) acc).1, true)
    else walkForest rootParts rest rel (walkDir rootParts d (rel ++ [dname]) acc).1
end

/-- Mirror of `AdvancedRecoveryEngine._scan_directory_optimized` on a
directory tree rooted at path components `rootParts`. -/
def scanDirectoryOptimized (rootParts : List String) (root : DirTree) : List RecoveredFile :=
  (walkDir rootParts root [] []).1

/-! The cancellable deep scan `AdvancedRecoveryEngine._optimized_deep_scan`. -/

/-- One scan location of the deep-scan loop: whether `location.exists()`, and
what `_scan_directory_optimized` returns for it. -/
structure ScanLocation where
  present : Bool
  files : List RecoveredFile
  deriving DecidableEq

/-- The location loop of `_optimized_deep_scan`: the cancellation flag is
checked at the top of each iteration; `cancelAfter` is the number of
completed iterations after which the flag is observed set. -/
def scanLocationsLoop : List ScanLocation → Nat → List RecoveredFile
  | [], _ => []
  | _ :: _, 0 => []
  | l :: rest, Nat.succ n => (if l.present then l.files else []) ++ scanLocationsLoop rest n

/-- Mirror of `next((sig for sig in FILE_SIGNATURES if sig.extension == ext), None)`. -/
def sigForExtension (ext : String) : Option FileSignature :=
  FILE_SIGNATURES.find? (fun s => s.extension == ext)

/-- ASCII bytes of a string, as Python `name.encode()` on these names. -/
def strBytes (s : String) : Bytes := s.toList.map Char.toNat

/-- Mirror of `AdvancedRecoveryEngine._scan_unallocated_space`: it always
fabricates the same two mock entries (`mock_signatures[:2]`); only their
`deleted_time` (from `random`/`time`) and hash-derived paths depend on the
environment. -/
def scanUnallocatedSpace (digest : Bytes → String) (t1 t2 : ℚ) : List RecoveredFile :=
  [{ name := "deleted_document.pdf"
     path := "unallocated_space_sector_" ++ digest (strBytes "deleted_document.pdf")
     size := 15360
     fileType := "pdf"
     signature := sigForExtension "pdf"
     quality := 7/10
     recoverable := true
     deletedTime := some t1 },
   { name := "deleted_image.jpg"
     path := "unallocated_space_sector_" ++ digest (strBytes "deleted_image.jpg")
     size := 2048000
     fileType := "jpg"
     signature := sigForExtension "jpg"
     quality := 8/10
     recoverable := true
     deletedTime := some t2 }]

/-- Environment-dependent results of the three other sub-scans of
`_scan_permanently_deleted_files` (recent operations, journal, fragments),
plus the two timestamps of the mock unallocated-space entries. -/
structure DeletedScanEnv where
  recentOps : List RecoveredFile
  journal : List RecoveredFile
  fragments : List RecoveredFile
  t1 : ℚ
  t2 : ℚ

/-- Mirror of `AdvancedRecoveryEngine._scan_permanently_deleted_files`. -/
def scanPermanentlyDeleted (digest : Bytes → String) (env : DeletedScanEnv) :
    List RecoveredFile :=
  env.recentOps ++ env.journal ++ env.fragments ++ scanUnallocatedSpace digest env.t1 env.t2

/-- Mirror of `AdvancedRecoveryEngine._optimized_deep_scan`: the cancellable
location loop, followed — unconditionally, with no cancellation check — by the
permanently-deleted-files phase. -/
def optimizedDeepScan (digest : Bytes → String) (locations : List ScanLocation)
    (cancelAfter : Nat) (env : DeletedScanEnv) : List RecoveredFile :=
  scanLocationsLoop locations cancelAfter ++ scanPermanentlyDeleted digest env

/-! The parallel location scan `AcceleratedFileScanner.scan_locations_parallel`. -/

/-- One requested location: whether `loc.exists()` held at submission time
(only then is a future dispatched), and the outcome of the dispatched unit —
`none` models an exception or a 30 s timeout of `future.result`. -/
structure ScanUnit where
  present : Bool
  outcome : Option (List String)
  deriving DecidableEq

/-- A unit that was dispatched and completed without raising or timing out. -/
def unitSucceeds (u : ScanUnit) : Bool := u.present && u.outcome.isSome

/-- Number of successful units of a request list. -/
def countSuccess (units : List ScanUnit) : Nat := (units.filter unitSucceeds).length

/-- The result-collection loop of `scan_locations_parallel`: `c` successful
units so far; after each success the progress value
`int(completed_locations / len(locations) * 100)` is reported (exact
arithmetic: `100 * c / total` in truncating division). -/
def progressLoop (total : Nat) : List ScanUnit → Nat → List Nat
  | [], _ => []
  | u :: rest, c =>
    if u.present then
      match u.outcome with
      | some _ => (100 * (c + 1) / total) :: progressLoop total rest (c + 1)
      | none => progressLoop total rest c
    else progressLoop total rest c

/-- All progress values reported during one `scan_locations_parallel` call,
where the divisor is the number of requested locations (present or not). -/
def progressReports (units : List ScanUnit) : List Nat :=
  progressLoop units.length units 0

/-- A signature-bearing candidate marked not recoverable, used to probe
`recover_file`. -/
def sampleRawCandidate : RecoveredFile :=
  { name := "x.jpg"
    path := "offset_0"
    size := 1
    fileType := "jpg"
    signature := some ⟨"jpg", "image/jpeg", [0xFF, 0xD8, 0xFF], some [0xFF, 0xD9],
      50 * 1024 * 1024, "JPEG Image"⟩
    quality := 7/10
    recoverable := false }

/-- A plain (no-signature) candidate marked not recoverable, used to probe
`recover_file`. -/
def samplePlainCandidate : RecoveredFile :=
  { name := "y.txt"
    path := "src/y.txt"
    size := 1
    fileType := "txt"
    signature := none
    quality := 3/10
    recoverable := false }

/-- The jpg catalog entry, spelled out for concrete instantiations. -/
def jpgSignature : FileSignature :=
  ⟨"jpg", "image/jpeg", [0xFF, 0xD8, 0xFF], some [0xFF, 0xD9], 50 * 1024 * 1024, "JPEG Image"⟩

/-- The gif catalog entry (no footer), spelled out for concrete instantiations. -/
def gifSignature : FileSignature :=
  ⟨"gif", "image/gif", [0x47, 0x49, 0x46, 0x38], none, 20 * 1024 * 1024, "GIF Image"⟩

/-- The docx catalog entry, whose header PK\x03\x04 is shared with xlsx, pptx
and zip. -/
def docxSignature : FileSignature :=
  ⟨"docx", "application/vnd.openxmlformats-officedocument.wordprocessingml.document",
    [0x50, 0x4B, 0x03, 0x04], none, 100 * 1024 * 1024, "Word Document"⟩

/-- The zip catalog entry, the last one declared with header PK\x03\x04. -/
def zipSignature : FileSignature :=
  ⟨"zip", "application/zip", [0x50, 0x4B, 0x03, 0x04], none, 1000 * 1024 * 1024, "ZIP Archive"⟩

/-- A trivial digest stand-in for concrete runs of the scanner. -/
def sampleDigest : Bytes → String := fun _ => "h"

/-- The spec's example chunk: a JPEG header, 100 filler bytes, a JPEG footer. -/
def sampleJpegChunk : Bytes := [0xFF, 0xD8, 0xFF] ++ List.replicate 100 0x41 ++ [0xFF, 0xD9]

/-- A 23-byte chunk starting with a JPEG header and containing no JPEG footer. -/
def sampleHeaderOnlyChunk : Bytes := [0xFF, 0xD8, 0xFF] ++ List.replicate 20 0x41

/-- A 12-byte chunk whose only catalog header (BM, the bmp entry) starts at
offset 2 — inside the chunk, but within its final 10 bytes. -/
def sampleTailChunk : Bytes := [0x00, 0x00, 0x42, 0x4D, 0x00, 0x00, 0x00, 0x00, 0x00, 0x00, 0x00, 0x00]

/-- The candidate the scanner emits for `sampleJpegChunk` under `sampleDigest`. -/
def sampleJpegEntry : RecoveredFile :=
  { name := "recovered_h.jpg"
    path := "offset_0"
    size := 105
    fileType := "jpg"
    signature := some jpgSignature
    quality := 7/10
    recoverable := true
    previewAvailable := true }

/-- One existing file reported by scan unit `i` in the deep-scan examples. -/
def sampleLocFile (i : Nat) : RecoveredFile :=
  { name := "f" ++ natStr i
    path := "loc" ++ natStr i ++ "/f" ++ natStr i
    size := 1
    fileType := "unknown"
    signature := none
    quality := 9/10 }

/-- Four present scan locations, one file each. -/
def sampleLocations : List ScanLocation :=
  [⟨true, [sampleLocFile 1]⟩, ⟨true, [sampleLocFile 2]⟩,
   ⟨true, [sampleLocFile 3]⟩, ⟨true, [sampleLocFile 4]⟩]

/-- A deleted-files environment in which the three environment-dependent
sub-scans find nothing. -/
def emptyDeletedEnv : DeletedScanEnv := ⟨[], [], [], 0, 0⟩

/-! Theorems. -/

/-- Rewriting under the clamp to the unit interval. -/
theorem clamp_congr {x y : ℚ} (h : x = y) : ratMax 0 (ratMin 1 x) = ratMax 0 (ratMin 1 y) := by
  rw [h]

/-- C5: for every filename, size and age, the existing-file quality score is
base 0.5, plus 0.3 / 0.2 / 0.1 by age bracket (stated on seconds), plus 0.2
for a valuable extension, minus 0.2 for a hidden or cache name, clamped to
the unit interval; and in particular
score of "backup.pdf" at size 1000 and age 3600 s is exactly 1. -/
theorem c5_existing_score_formula :
    (∀ (filename : String) (size : Nat) (ageSeconds : ℚ),
        calculateRecoveryScore filename size ageSeconds = scoreExistingSpec filename ageSeconds) ∧
    calculateRecoveryScore "backup.pdf" 1000 3600 = 1 := by
  constructor
  · intro filename size ageSeconds
    have e1 : ageSeconds / 86400 < 1 ↔ ageSeconds < 86400 := by
      rw [div_lt_iff₀ (by norm_num : (0:ℚ) < 86400)]; norm_num
    have e7 : ageSeconds / 86400 < 7 ↔ ageSeconds < 7 * 86400 := by
      rw [div_lt_iff₀ (by norm_num : (0:ℚ) < 86400)]
    have e30 : ageSeconds / 86400 < 30 ↔ ageSeconds < 30 * 86400 := by
      rw [div_lt_iff₀ (by norm_num : (0:ℚ) < 86400)]
    simp only [calculateRecoveryScore, scoreExistingSpec, e1, e7, e30]
    split_ifs <;> exact clamp_congr (by ring)
  · have hage : (3600:ℚ) / 86400 < 1 := by norm_num
    have hext : hasValuableExtension "backup.pdf" = true := by decide
    have hdot : startsWithDot "backup.pdf" = false := by decide
    have hcache : containsCache "backup.pdf" = false := by decide
    simp only [calculateRecoveryScore, hage, hext, hdot, hcache, if_true, Bool.or_self,
      Bool.false_eq_true, if_false]
    norm_num [ratMin, ratMax]

/-- C2 counterexample: `recover_file` on candidates with `recoverable = false`
does not return the failure-without-I/O the claim requires — with a signature
it writes a placeholder file and even reports success; without one it attempts
the copy, reading the source and writing the destination. -/
theorem c2_counterexample :
    sampleRawCandidate.recoverable = false ∧
    (recoverFile ⟨[]⟩ sampleRawCandidate "dest").1 = true ∧
    (recoverFile ⟨[]⟩ sampleRawCandidate "dest").2.2 = [FSAction.writePath "dest/x.jpg"] ∧
    samplePlainCandidate.recoverable = false ∧
    (recoverFile ⟨[("src/y.txt", 9)]⟩ samplePlainCandidate "dest").2.2 =
      [FSAction.readPath "src/y.txt", FSAction.writePath "dest/y.txt"] :=
  ⟨rfl, rfl, rfl, rfl, rfl⟩

/-- C2 amended: `recover_file` never consults the `recoverable` flag — its
result is identical with the flag forced to `true` — and it always attempts
filesystem I/O (a placeholder write when a signature is present, otherwise a
source read for the copy), for every destination directory. -/
theorem c2_recover_ignores_flag_and_does_io (fs : SimpleFS) (fileInfo : RecoveredFile)
    (outputPath : String) :
    recoverFile fs fileInfo outputPath =
      recoverFile fs { fileInfo with recoverable := true } outputPath ∧
    (recoverFile fs fileInfo outputPath).2.2 ≠ [] := by
  constructor
  · cases h : fileInfo.signature <;> simp [recoverFile, h, recoverRawFile, copy2]
  · cases h : fileInfo.signature with
    | none =>
      simp only [recoverFile, h, copy2]
      split <;> simp
    | some s => simp [recoverFile, h, recoverRawFile]

/-- The collection loop of the parallel scan reports, for the `c`-th success
counted from `c₀`, exactly the truncated percentage of `c` over the requested
total. -/
theorem progressLoop_eq (total : Nat) (units : List ScanUnit) (c : Nat) :
    progressLoop total units c =
      (List.range (countSuccess units)).map (fun k => 100 * (c + k + 1) / total) := by
  induction units generalizing c with
  | nil => simp [progressLoop, countSuccess]
  | cons u rest ih =>
    by_cases hp : u.present = true
    · cases ho : u.outcome with
      | some v =>
        have hs : unitSucceeds u = true := by simp [unitSucceeds, hp, ho]
        rw [progressLoop, if_pos hp, ho]
        rw [ih (c + 1)]
        rw [show countSuccess (u :: rest) = countSuccess rest + 1 by
          simp [countSuccess, List.filter_cons, hs]]
        rw [List.range_succ_eq_map, List.map_cons, List.map_map]
        refine congrArg₂ _ (by simp) (List.map_congr_left (fun k _ => ?_))
        simp only [Function.comp_apply]
        congr 2
        omega
      | none =>
        have hs : unitSucceeds u = false := by simp [unitSucceeds, ho]
        rw [progressLoop, if_pos hp, ho, ih c]
        rw [show countSuccess (u :: rest) = countSuccess rest by
          simp [countSuccess, List.filter_cons, hs]]
    · have hs : unitSucceeds u = false := by simp [unitSucceeds, Bool.eq_false_iff.mpr hp]
      rw [progressLoop, if_neg hp, ih c]
      rw [show countSuccess (u :: rest) = countSuccess rest by
        simp [countSuccess, List.filter_cons, hs]]

/-- Removing one falsifying element makes a filter strictly shorter than the
list. -/
theorem countSuccess_lt_of_bad {units : List ScanUnit} {u : ScanUnit} (hu : u ∈ units)
    (hbad : unitSucceeds u = false) : countSuccess units < units.length := by
  induction units with
  | nil => cases hu
  | cons v rest ih =>
    rcases List.mem_cons.mp hu with h | h
    · subst h
      have h1 : countSuccess (u :: rest) = countSuccess rest := by
        simp [countSuccess, List.filter_cons, hbad]
      have h2 : countSuccess rest ≤ rest.length := List.length_filter_le _ _
      simp only [h1, List.length_cons]
      omega
    · have h3 := ih h
      by_cases hv : unitSucceeds v = true
      · have h1 : countSuccess (v :: rest) = countSuccess rest + 1 := by
          simp [countSuccess, List.filter_cons, hv]
        simp only [h1, List.length_cons]
        omega
      · have h1 : countSuccess (v :: rest) = countSuccess rest := by
          simp [countSuccess, List.filter_cons, hv]
        simp only [h1, List.length_cons]
        omega

/-- C10: every reported progress value of the parallel location scan is
`100 * c / n` in truncating division, where `n` counts all requested
locations (existing or not) and `c` counts the units completed so far without
an exception or timeout; the reported sequence is monotonically
non-decreasing; and 100 is never reported when some requested location does
not exist or some dispatched unit fails or times out. -/
theorem c10_progress_values (units : List ScanUnit) :
    progressReports units =
      (List.range (countSuccess units)).map (fun k => 100 * (k + 1) / units.length) ∧
    (progressReports units).Pairwise (· ≤ ·) ∧
    ((∃ u ∈ units, u.present = false ∨ u.outcome = none) → 100 ∉ progressReports units) := by
  have hchar : progressReports units =
      (List.range (countSuccess units)).map (fun k => 100 * (k + 1) / units.length) := by
    rw [progressReports, progressLoop_eq]
    exact List.map_congr_left (fun k _ => by simp)
  refine ⟨hchar, ?_, ?_⟩
  · rw [hchar]
    refine List.Pairwise.map _ (fun a b hab => ?_) (List.pairwise_lt_range _)
    exact Nat.div_le_div_right (Nat.mul_le_mul_left 100 (by omega))
  · rintro ⟨u, hu, hbad⟩ hmem
    have hfail : unitSucceeds u = false := by
      rcases hbad with h | h <;> simp [unitSucceeds, h]
    have hlt : countSuccess units < units.length := countSuccess_lt_of_bad hu hfail
    rw [hchar] at hmem
    rcases List.mem_map.mp hmem with ⟨k, hk, he⟩
    have hk' : k < countSuccess units := List.mem_range.mp hk
    have hn : 0 < units.length := by omega
    have : 100 * (k + 1) / units.length < 100 := by
      rw [Nat.div_lt_iff_lt_mul hn]
      omega
    omega

/-- C10 witness: a concrete request list with one absent location; the
theorem shows 100 is never among its reported progress values. -/
theorem c10_progress_values_witness :
    (⟨false, none⟩ : ScanUnit) ∈ [(⟨true, some []⟩ : ScanUnit), ⟨false, none⟩] ∧
    100 ∉ progressReports [(⟨true, some []⟩ : ScanUnit), ⟨false, none⟩] :=
  ⟨by simp,
   (c10_progress_values [(⟨true, some []⟩ : ScanUnit), ⟨false, none⟩]).2.2
     ⟨⟨false, none⟩, by simp, Or.inl rfl⟩⟩

/-- C8 counterexample: cancelling the deep scan after unit 1 of 4 does not
yield exactly unit 1's entries — the permanently-deleted-files phase still
runs after the cancelled loop and appends its two mock unallocated-space
entries, so the result has unit 1's single entry as a proper prefix. -/
theorem c8_counterexample :
    optimizedDeepScan sampleDigest sampleLocations 1 emptyDeletedEnv ≠ [sampleLocFile 1] ∧
    (optimizedDeepScan sampleDigest sampleLocations 1 emptyDeletedEnv).take 1 = [sampleLocFile 1] ∧
    (optimizedDeepScan sampleDigest sampleLocations 1 emptyDeletedEnv).length = 3 := by
  refine ⟨fun h => ?_, rfl, rfl⟩
  have hlen : (optimizedDeepScan sampleDigest sampleLocations 1 emptyDeletedEnv).length = 3 := rfl
  rw [h] at hlen
  simp at hlen

/-- C8 amended: cancellation stops the location loop at its next check point
and everything accumulated before it is kept, as a prefix of the output
(partial results are never discarded); but the scan then still runs the
permanently-deleted-files phase — with no cancellation check — and appends its
entries, which always include the two fabricated unallocated-space mocks.  So
cancelling after unit 1 of 4 returns unit 1's entries followed by that
phase's entries, not exactly unit 1's entries. -/
theorem c8_cancel_keeps_prefix_then_appends (digest : Bytes → String)
    (locations : List ScanLocation) (cancelAfter : Nat) (env : DeletedScanEnv) :
    optimizedDeepScan digest locations cancelAfter env =
      (locations.take cancelAfter).flatMap (fun l => if l.present then l.files else []) ++
        (env.recentOps ++ env.journal ++ env.fragments ++
          scanUnallocatedSpace digest env.t1 env.t2) ∧
    2 ≤ (scanPermanentlyDeleted digest env).length := by
  constructor
  · rw [optimizedDeepScan, scanPermanentlyDeleted]
    congr 1
    induction locations generalizing cancelAfter with
    | nil => simp [scanLocationsLoop]
    | cons l rest ih =>
      cases cancelAfter with
      | zero => simp [scanLocationsLoop]
      | succ n => simp [scanLocationsLoop, ih]
  · simp [scanPermanentlyDeleted, scanUnallocatedSpace]
    omega

/-- C9: every candidate emitted by the chunk signature scanner carries quality
exactly 0.7 and `recoverable = true`, whether or not a footer bound was found. -/
theorem c9_chunk_scanner_quality (digest : Bytes → String) (chunk : Bytes) (offset : Nat) :
    ∀ f ∈ findSignaturesInChunk digest chunk offset, f.quality = 7/10 ∧ f.recoverable = true := by
  intro f hf
  rw [findSignaturesInChunk] at hf
  rcases List.mem_flatMap.mp hf with ⟨i, hi, hfi⟩
  rcases List.mem_filterMap.mp hfi with ⟨p, hp, hpe⟩
  by_cases hs : sliceEq chunk i p.1 = true
  · rw [if_pos hs] at hpe
    simp only [extractFileFromSignature, Option.some.injEq] at hpe
    subst hpe
    exact ⟨rfl, rfl⟩
  · rw [if_neg hs] at hpe
    cases hpe

/-- C9 witness: the scanner's output on the spec's JPEG example chunk contains
the concrete emitted entry, and the theorem yields its quality and flag. -/
theorem c9_chunk_scanner_quality_witness :
    sampleJpegEntry ∈ findSignaturesInChunk sampleDigest sampleJpegChunk 0 ∧
    sampleJpegEntry.quality = 7/10 ∧ sampleJpegEntry.recoverable = true :=
  have hmem : sampleJpegEntry ∈ findSignaturesInChunk sampleDigest sampleJpegChunk 0 := by
    rw [show findSignaturesInChunk sampleDigest sampleJpegChunk 0 = [sampleJpegEntry] from rfl]
    exact List.mem_singleton.mpr rfl
  ⟨hmem, c9_chunk_scanner_quality sampleDigest sampleJpegChunk 0 sampleJpegEntry hmem⟩

/-- C3 counterexample: a chunk of length 12 with the bmp header BM at offset
2: the header lies entirely inside the chunk (2 + 2 ≤ 12) and matches there,
but the scanner — which only visits offsets below `len(chunk) - 10` — returns
nothing at all. -/
theorem c3_counterexample :
    findSignaturesInChunk sampleDigest sampleTailChunk 0 = [] ∧
    sliceEq sampleTailChunk 2 [0x42, 0x4D] = true ∧
    2 + 2 ≤ sampleTailChunk.length ∧
    (⟨"bmp", "image/bmp", [0x42, 0x4D], none, 50 * 1024 * 1024, "Bitmap Image"⟩ : FileSignature)
      ∈ FILE_SIGNATURES :=
  ⟨rfl, rfl, by decide, by decide⟩

/-- The extractor never fails in the model and fixes path, type, quality and
flag of the emitted candidate. -/
theorem extract_some_fields (digest : Bytes → String) (chunk : Bytes)
    (chunkOffset fileOffset : Nat) (sig : FileSignature) :
    ∃ rf, extractFileFromSignature digest chunk chunkOffset fileOffset sig = some rf ∧
      rf.path = "offset_" ++ toString fileOffset ∧ rf.fileType = sig.extension :=
  ⟨_, rfl, rfl, rfl⟩

/-- C3 amended: the chunk scan is byte-granular and exhaustive only over the
offsets `0 ≤ i < chunk.len() − 10` (none at all when the chunk has 10 bytes
or fewer): every signature-dict entry whose header matches at such an offset
produces an emitted candidate recorded at source offset `base + i`; headers
starting in the final 10 bytes of the chunk are never tested. -/
theorem c3_scan_exhaustive_below_cap (digest : Bytes → String) (chunk : Bytes)
    (offset i : Nat) (p : Bytes × FileSignature) (hi : i < chunk.length - 10)
    (hp : p ∈ signatureMap) (hm : sliceEq chunk i p.1 = true) :
    ∃ f ∈ findSignaturesInChunk digest chunk offset,
      f.path = "offset_" ++ toString (offset + i) ∧ f.fileType = p.2.extension := by
  obtain ⟨rf, hex, hpath, htype⟩ := extract_some_fields digest chunk i (offset + i) p.2
  refine ⟨rf, ?_, hpath, htype⟩
  rw [findSignaturesInChunk]
  exact List.mem_flatMap.mpr
    ⟨i, List.mem_range.mpr hi, List.mem_filterMap.mpr ⟨p, hp, by rw [if_pos hm, hex]⟩⟩

/-- C3 amended witness: on the JPEG example chunk the jpg entry matches at
offset 0 below the cap, and the theorem produces the emitted candidate. -/
theorem c3_scan_exhaustive_below_cap_witness :
    (0 < sampleJpegChunk.length - 10) ∧
    (([0xFF, 0xD8, 0xFF], jpgSignature) ∈ signatureMap) ∧
    ∃ f ∈ findSignaturesInChunk sampleDigest sampleJpegChunk 0,
      f.path = "offset_" ++ toString (0 + 0) ∧ f.fileType = "jpg" :=
  ⟨by decide, by decide,
   c3_scan_exhaustive_below_cap sampleDigest sampleJpegChunk 0 0 ([0xFF, 0xD8, 0xFF], jpgSignature)
     (by decide) (by decide) rfl⟩

/-- A successful `bytes.find` result is at or after the requested start. -/
theorem bytesFind_start_le {chunk pat : Bytes} {start j : Nat}
    (hj : bytesFind chunk pat start = some j) : start ≤ j := by
  rw [bytesFind] at hj
  have := List.find?_some hj
  simp only [Bool.and_eq_true, decide_eq_true_eq] at this
  exact this.1.1

/-- C4: the extent recorded by the extractor.  With a footer found at `j`
(searching forward from the header offset `i`) the size is exactly
`j + len(footer) − i`; with a footer configured but not found it is
`min(max_size, len(chunk) − i)`; without a footer it is
`min(max_size, len(chunk) − i, 1 MiB)`. -/
theorem c4_extent_rules (digest : Bytes → String) (chunk : Bytes)
    (chunkOffset fileOffset : Nat) (sig : FileSignature) :
    (∀ f j, sig.footer = some f → bytesFind chunk f chunkOffset = some j →
      ∃ rf, extractFileFromSignature digest chunk chunkOffset fileOffset sig = some rf ∧
        chunkOffset ≤ j ∧ rf.size = j + f.length - chunkOffset) ∧
    (∀ f, sig.footer = some f → bytesFind chunk f chunkOffset = none →
      ∃ rf, extractFileFromSignature digest chunk chunkOffset fileOffset sig = some rf ∧
        rf.size = min sig.maxSize (chunk.length - chunkOffset)) ∧
    (sig.footer = none →
      ∃ rf, extractFileFromSignature digest chunk chunkOffset fileOffset sig = some rf ∧
        rf.size = min sig.maxSize (min (chunk.length - chunkOffset) (1024 * 1024))) := by
  refine ⟨?_, ?_, ?_⟩
  · intro f j hf hj
    have hle : chunkOffset ≤ j := bytesFind_start_le hj
    simp only [extractFileFromSignature, hf, hj]
    exact ⟨_, rfl, hle, by show j - chunkOffset + f.length = j + f.length - chunkOffset; omega⟩
  · intro f hf hj
    simp only [extractFileFromSignature, hf, hj]
    exact ⟨_, rfl, rfl⟩
  · intro hf
    simp only [extractFileFromSignature, hf]
    exact ⟨_, rfl, rfl⟩

/-- C4 witness: the three extent rules at concrete inputs — footer found on
the JPEG example chunk (size 105 = 103 + 2 − 0), footer absent on a 23-byte
header-only chunk (size min(50 MiB, 23) = 23), and the footerless gif entry
(size min(20 MiB, 23, 1 MiB)). -/
theorem c4_extent_rules_witness :
    (bytesFind sampleJpegChunk [0xFF, 0xD9] 0 = some 103 ∧
      ∃ rf, extractFileFromSignature sampleDigest sampleJpegChunk 0 0 jpgSignature = some rf ∧
        0 ≤ 103 ∧ rf.size = 103 + 2 - 0) ∧
    (bytesFind sampleHeaderOnlyChunk [0xFF, 0xD9] 0 = none ∧
      ∃ rf, extractFileFromSignature sampleDigest sampleHeaderOnlyChunk 0 0 jpgSignature = some rf ∧
        rf.size = min (50 * 1024 * 1024) (23 - 0)) ∧
    (∃ rf, extractFileFromSignature sampleDigest sampleHeaderOnlyChunk 0 0 gifSignature = some rf ∧
      rf.size = min (20 * 1024 * 1024) (min (23 - 0) (1024 * 1024))) :=
  ⟨⟨rfl, (c4_extent_rules sampleDigest sampleJpegChunk 0 0 jpgSignature).1 [0xFF, 0xD9] 103 rfl rfl⟩,
   ⟨rfl, (c4_extent_rules sampleDigest sampleHeaderOnlyChunk 0 0 jpgSignature).2.1 [0xFF, 0xD9] rfl rfl⟩,
   (c4_extent_rules sampleDigest sampleHeaderOnlyChunk 0 0 gifSignature).2.2 rfl⟩

/-- If two byte strings are prefix-incomparable, padding the second never
makes a slice of the padded string equal to the first. -/
theorem take_append_ne {k h : Bytes} (rest : Bytes) (h1 : ¬ k <+: h) (h2 : ¬ h <+: k) :
    (h ++ rest).take k.length ≠ k := by
  intro he
  rcases le_or_lt k.length h.length with hle | hlt
  · rw [List.take_append_of_le_length hle] at he
    exact h1 (he ▸ (⟨h.drop k.length, List.take_append_drop _ _⟩ : h.take k.length <+: h))
  · have hk : k.take h.length = h := by
      rw [← he, List.take_take, min_eq_left hlt.le, List.take_left]
    exact h2 (hk ▸ (⟨k.drop h.length, List.take_append_drop _ _⟩ : k.take h.length <+: k))

/-- On a buffer that begins with the header of a catalog entry, the scanner's
per-offset dict scan degenerates to a key lookup of exactly that header,
provided no other dict key is prefix-comparable with it. -/
theorem headerMatches_eq_key_filter (s : FileSignature) (rest : Bytes)
    (hpf : ∀ p ∈ signatureMap, p.1 ≠ s.header → ¬ (p.1 <+: s.header) ∧ ¬ (s.header <+: p.1)) :
    headerMatchesAt (s.header ++ rest) 0 =
      (signatureMap.filter (fun p => p.1 == s.header)).map (fun p => p.2) := by
  rw [headerMatchesAt]
  congr 1
  apply List.filter_congr
  intro p hp
  by_cases he : p.1 = s.header
  · simp only [sliceEq, List.drop_zero, he, List.take_left]
  · have hne := hpf p hp he
    have hneq := take_append_ne rest hne.1 hne.2
    simp only [sliceEq, List.drop_zero]
    rw [beq_eq_false_iff_ne.mpr hneq, beq_eq_false_iff_ne.mpr he]

/-- No two distinct keys of the signature dict are prefix-comparable: checked
over the whole catalog. -/
theorem signatureMap_no_comparable_keys :
    ∀ s ∈ FILE_SIGNATURES, ∀ p ∈ signatureMap, p.1 ≠ s.header →
      ¬ (p.1 <+: s.header) ∧ ¬ (s.header <+: p.1) := by decide

/-- For every catalog entry, the signature dict holds exactly one entry under
its header, and that value is the last catalog entry declared with this
header: checked over the whole catalog. -/
theorem signatureMap_key_lookup :
    ∀ s ∈ FILE_SIGNATURES,
      ((signatureMap.filter (fun p => p.1 == s.header)).map (fun p => p.2)).length = 1 ∧
      ∀ v ∈ (signatureMap.filter (fun p => p.1 == s.header)).map (fun p => p.2),
        v.header = s.header ∧ lastDeclaredWith s.header = some v := by decide

/-- C1 counterexample: a buffer holding exactly the docx entry's header bytes
at offset 0 looks up to the zip entry — which shares the header but is
declared later, not earlier, than docx (dict construction keeps the last
declaration, not the first). -/
theorem c1_counterexample :
    docxSignature ∈ FILE_SIGNATURES ∧
    headerMatchesAt docxSignature.header 0 = [zipSignature] ∧
    zipSignature ≠ docxSignature ∧
    zipSignature.header = docxSignature.header ∧
    FILE_SIGNATURES.indexOf docxSignature < FILE_SIGNATURES.indexOf zipSignature := by
  refine ⟨by decide, rfl, by decide, rfl, by decide⟩

/-- C1 amended: for every catalog entry, the chunk scanner's lookup on a
buffer that begins with that entry's header returns exactly one signature; it
shares the entry's header bytes, and it is the last-declared catalog entry
with that header (declaration-order collisions are resolved in favor of the
last declaration, because the signature dict overwrites on duplicate keys). -/
theorem c1_lookup_returns_last_declared (s : FileSignature) (hs : s ∈ FILE_SIGNATURES)
    (rest : Bytes) :
    ∃ v, headerMatchesAt (s.header ++ rest) 0 = [v] ∧ v.header = s.header ∧
      lastDeclaredWith s.header = some v := by
  rw [headerMatches_eq_key_filter s rest (signatureMap_no_comparable_keys s hs)]
  obtain ⟨hlen, hall⟩ := signatureMap_key_lookup s hs
  obtain ⟨v, hv⟩ := List.length_eq_one.mp hlen
  refine ⟨v, hv, ?_⟩
  have hm : v ∈ (signatureMap.filter (fun p => p.1 == s.header)).map (fun p => p.2) := by
    rw [hv]; exact List.mem_singleton.mpr rfl
  exact hall v hm

/-- C1 amended witness: instantiated at the docx entry with a padded buffer;
the single returned signature is the zip entry. -/
theorem c1_lookup_returns_last_declared_witness :
    docxSignature ∈ FILE_SIGNATURES ∧
    ∃ v, headerMatchesAt (docxSignature.header ++ [0x00, 0x01]) 0 = [v] ∧
      v.header = docxSignature.header ∧ lastDeclaredWith docxSignature.header = some v :=
  ⟨by decide, c1_lookup_returns_last_declared docxSignature (by decide) [0x00, 0x01]⟩

/-- Everything in the accumulator stays below the cap, and the file loop
signals a stop exactly when it reaches 100 entries. -/
theorem walkFiles_length (rootParts rel : List String) (files : List FileMeta)
    (acc : List RecoveredFile) (h : acc.length < 100) :
    (walkFiles rootParts rel files acc).1.length ≤ 100 ∧
    ((walkFiles rootParts rel files acc).2 = false →
      (walkFiles rootParts rel files acc).1.length < 100) := by
  induction files generalizing acc with
  | nil => exact ⟨h.le, fun _ => h⟩
  | cons f rest ih =>
    have hlb : (walkStep rootParts rel f acc).length ≤ acc.length + 1 := by
      rw [walkStep]; split <;> simp
    rw [walkFiles]
    by_cases hcap : 100 ≤ (walkStep rootParts rel f acc).length
    · rw [if_pos hcap]
      refine ⟨?_, by simp⟩
      show (walkStep rootParts rel f acc).length ≤ 100
      omega
    · rw [if_neg hcap]
      exact ih _ (by omega)

/-- Every entry produced by the file loop is either inherited from the
accumulator or a size-banded entry of the current directory. -/
theorem walkFiles_mem (rootParts rel : List String) (files : List FileMeta)
    (acc : List RecoveredFile) :
    ∀ e ∈ (walkFiles rootParts rel files acc).1, e ∈ acc ∨ ∃ f ∈ files,
      (0 < f.fsize ∧ f.fsize < 100 * 1024 * 1024) ∧ e = mkWalkEntry rootParts rel f := by
  induction files generalizing acc with
  | nil => exact fun e he => Or.inl he
  | cons f rest ih =>
    intro e he
    have hstep : ∀ x ∈ walkStep rootParts rel f acc, x ∈ acc ∨
        (0 < f.fsize ∧ f.fsize < 100 * 1024 * 1024) ∧ x = mkWalkEntry rootParts rel f := by
      intro x hx
      rw [walkStep] at hx
      split at hx
      · rcases List.mem_append.mp hx with h | h
        · exact Or.inl h
        · exact Or.inr ⟨by assumption, List.mem_singleton.mp h⟩
      · exact Or.inl hx
    rw [walkFiles] at he
    split at he
    · rcases hstep e he with h | ⟨hb, hf⟩
      · exact Or.inl h
      · exact Or.inr ⟨f, List.mem_cons_self f rest, hb, hf⟩
    · rcases ih _ e he with h | ⟨g, hg, hb, hf⟩
      · rcases hstep e h with h2 | ⟨hb, hf⟩
        · exact Or.inl h2
        · exact Or.inr ⟨f, List.mem_cons_self f rest, hb, hf⟩
      · exact Or.inr ⟨g, List.mem_cons_of_mem f hg, hb, hf⟩

mutual
/-- Cap invariant of the directory walk: starting below 100 accumulated
entries, the walk never exceeds 100, and only stops short of 100 when its
stop flag is clear. -/
theorem walkDir_length (rootParts : List String) (t : DirTree) (rel : List String)
    (acc : List RecoveredFile) (h : acc.length < 100) :
    (walkDir rootParts t rel acc).1.length ≤ 100 ∧
    ((walkDir rootParts t rel acc).2 = false →
      (walkDir rootParts t rel acc).1.length < 100) := by
  cases t with
  | node files ds =>
    have hf := walkFiles_length rootParts rel files acc h
    rw [walkDir]
    by_cases h1 : (walkFiles rootParts rel files acc).2 = true
    · rw [if_pos h1]
      exact ⟨hf.1, by simp⟩
    · rw [if_neg h1]
      have hlt : (walkFiles rootParts rel files acc).1.length < 100 :=
        hf.2 (Bool.not_eq_true _ ▸ h1)
      by_cases h2 : 3 ≤ rel.length
      · rw [if_pos h2]
        exact ⟨hlt.le, fun _ => hlt⟩
      · rw [if_neg h2]
        exact walkForest_length rootParts ds rel _ hlt
/-- Cap invariant of the subdirectory loop. -/
theorem walkForest_length (rootParts : List String) (d : DirForest) (rel : List String)
    (acc : List RecoveredFile) (h : acc.length < 100) :
    (walkForest rootParts d rel acc).1.length ≤ 100 ∧
    ((walkForest rootParts d rel acc).2 = false →
      (walkForest rootParts d rel acc).1.length < 100) := by
  cases d with
  | fnil => exact ⟨h.le, fun _ => h⟩
  | fcons dname t rest =>
    have h1 := walkDir_length rootParts t (rel ++ [dname]) acc h
    rw [walkForest]
    by_cases hs : (walkDir rootParts t (rel ++ [dname]) acc).2 = true
    · rw [if_pos hs]
      exact ⟨h1.1, by simp⟩
    · rw [if_neg hs]
      exact walkForest_length rootParts rest rel _ (h1.2 (Bool.not_eq_true _ ▸ hs))
end

mutual
/-- Origin invariant of the directory walk: called at relative depth ≤ 3,
every produced entry is inherited or a size-banded entry of a directory at
relative depth ≤ 3. -/
theorem walkDir_mem (rootParts : List String) (t : DirTree) (rel : List String)
    (acc : List RecoveredFile) (hrel : rel.length ≤ 3) :
    ∀ e ∈ (walkDir rootParts t rel acc).1, e ∈ acc ∨ ∃ rel2 f, rel2.length ≤ 3 ∧
      (0 < f.fsize ∧ f.fsize < 100 * 1024 * 1024) ∧ e = mkWalkEntry rootParts rel2 f := by
  cases t with
  | node files ds =>
    intro e he
    have hfiles : ∀ x ∈ (walkFiles rootParts rel files acc).1, x ∈ acc ∨
        ∃ rel2 f, rel2.length ≤ 3 ∧ (0 < f.fsize ∧ f.fsize < 100 * 1024 * 1024) ∧
          x = mkWalkEntry rootParts rel2 f := by
      intro x hx
      rcases walkFiles_mem rootParts rel files acc x hx with h | ⟨f, _, hb, hf⟩
      · exact Or.inl h
      · exact Or.inr ⟨rel, f, hrel, hb, hf⟩
    rw [walkDir] at he
    split at he
    · exact hfiles e he
    · split at he
      · exact hfiles e he
      · rename_i hdepth
        have hlt : rel.length < 3 := by omega
        rcases walkForest_mem rootParts ds rel _ hlt e he with h | h
        · exact hfiles e h
        · exact Or.inr h
/-- Origin invariant of the subdirectory loop: called at relative depth < 3,
so each subdirectory is walked at depth ≤ 3. -/
theorem walkForest_mem (rootParts : List String) (d : DirForest) (rel : List String)
    (acc : List RecoveredFile) (hrel : rel.length < 3) :
    ∀ e ∈ (walkForest rootParts d rel acc).1, e ∈ acc ∨ ∃ rel2 f, rel2.length ≤ 3 ∧
      (0 < f.fsize ∧ f.fsize < 100 * 1024 * 1024) ∧ e = mkWalkEntry rootParts rel2 f := by
  cases d with
  | fnil => exact fun e he => Or.inl he
  | fcons dname t rest =>
    intro e he
    have hchild : ∀ x ∈ (walkDir rootParts t (rel ++ [dname]) acc).1, x ∈ acc ∨
        ∃ rel2 f, rel2.length ≤ 3 ∧ (0 < f.fsize ∧ f.fsize < 100 * 1024 * 1024) ∧
          x = mkWalkEntry rootParts rel2 f :=
      walkDir_mem rootParts t (rel ++ [dname]) acc (by simp; omega)
    rw [walkForest] at he
    split at he
    · exact hchild e he
    · rcases walkForest_mem rootParts rest rel _ hrel e he with h | h
      · exact hchild e h
      · exact Or.inr h
end

/-- C6: on every directory tree, the walk of `_scan_directory_optimized`
returns only entries with `0 < size < 100 MiB` (zero-byte and over-bound
files are silently excluded), every entry originates from a directory at
relative depth at most the pruning depth 3, and at most 100 entries are ever
returned. -/
theorem c6_directory_walk_bounds (rootParts : List String) (root : DirTree) :
    (∀ e ∈ scanDirectoryOptimized rootParts root,
        0 < e.size ∧ e.size < 100 * 1024 * 1024) ∧
    (∀ e ∈ scanDirectoryOptimized rootParts root,
        ∃ rel f, rel.length ≤ 3 ∧ e = mkWalkEntry rootParts rel f) ∧
    (scanDirectoryOptimized rootParts root).length ≤ 100 := by
  have hmem := walkDir_mem rootParts root [] [] (by simp)
  have hlen := walkDir_length rootParts root [] [] (by simp)
  refine ⟨?_, ?_, hlen.1⟩
  · intro e he
    rcases hmem e he with h | ⟨rel2, f, _, hsz, hef⟩
    · cases h
    · subst hef
      exact ⟨hsz.1, hsz.2⟩
  · intro e he
    rcases hmem e he with h | ⟨rel2, f, h3, _, hef⟩
    · cases h
    · exact ⟨rel2, f, h3, hef⟩

/-- With enough fuel, the fuel-bounded digit rendering agrees with
`Nat.digits`. -/
theorem toDigitsAux_eq (fuel : Nat) : ∀ n : Nat, n ≤ fuel →
    toDigitsAux fuel n = (Nat.digits 10 n).reverse.map digitChar := by
  induction fuel with
  | zero =>
    intro n hn
    have h0 : n = 0 := by omega
    subst h0
    simp [toDigitsAux]
  | succ fuel ih =>
    intro n hn
    rw [toDigitsAux]
    by_cases h0 : n = 0
    · subst h0; simp
    · rw [if_neg h0]
      have hdiv : n / 10 < n := Nat.div_lt_self (Nat.pos_of_ne_zero h0) (by norm_num)
      rw [ih (n / 10) (by omega)]
      rw [Nat.digits_def' (by norm_num : 1 < 10) (Nat.pos_of_ne_zero h0)]
      simp

/-- The decimal rendering in terms of `Nat.digits`. -/
theorem natChars_eq (n : Nat) :
    natChars n = if n = 0 then ['0'] else (Nat.digits 10 n).reverse.map digitChar := by
  rw [natChars]
  by_cases h0 : n = 0
  · rw [if_pos h0, if_pos h0]
  · rw [if_neg h0, if_neg h0]
    exact toDigitsAux_eq n n le_rfl

/-- Digit characters distinguish decimal digits. -/
theorem digitChar_injOn {a b : Nat} (ha : a < 10) (hb : b < 10) (h : digitChar a = digitChar b) :
    a = b := by
  revert h
  interval_cases a <;> interval_cases b <;> decide

/-- Character renderings of digit lists distinguish the lists. -/
theorem digits_map_inj : ∀ l1 l2 : List Nat, (∀ x ∈ l1, x < 10) → (∀ x ∈ l2, x < 10) →
    l1.map digitChar = l2.map digitChar → l1 = l2 := by
  intro l1
  induction l1 with
  | nil =>
    intro l2 _ _ h
    cases l2 with
    | nil => rfl
    | cons b t2 => simp at h
  | cons a t ih =>
    intro l2 h1 h2 h
    cases l2 with
    | nil => simp at h
    | cons b t2 =>
      simp only [List.map_cons, List.cons.injEq] at h
      rw [digitChar_injOn (h1 a (by simp)) (h2 b (by simp)) h.1,
        ih t2 (fun x hx => h1 x (by simp [hx])) (fun x hx => h2 x (by simp [hx])) h.2]

/-- All digits of a decimal expansion are below 10. -/
theorem digits_lt_ten (n : Nat) : ∀ x ∈ (Nat.digits 10 n).reverse, x < 10 := by
  intro x hx
  exact Nat.digits_lt_base (by norm_num) (List.mem_reverse.mp hx)

/-- Python decimal rendering is injective. -/
theorem natChars_injective : Function.Injective natChars := by
  intro m n h
  rw [natChars_eq, natChars_eq] at h
  by_cases hm : m = 0 <;> by_cases hn : n = 0
  · omega
  · exfalso
    rw [if_pos hm, if_neg hn] at h
    have h2 : [0] = (Nat.digits 10 n).reverse := by
      apply digits_map_inj [0] _ (by simp) (digits_lt_ten n)
      simpa using h
    have h3 : Nat.digits 10 n = [0] := by
      have := congrArg List.reverse h2
      simpa using this.symm
    have h4 := Nat.ofDigits_digits 10 n
    rw [h3] at h4
    simp [Nat.ofDigits] at h4
    omega
  · exfalso
    rw [if_neg hm, if_pos hn] at h
    have h2 : [0] = (Nat.digits 10 m).reverse := by
      apply digits_map_inj [0] _ (by simp) (digits_lt_ten m)
      simpa using h.symm
    have h3 : Nat.digits 10 m = [0] := by
      have := congrArg List.reverse h2
      simpa using this.symm
    have h4 := Nat.ofDigits_digits 10 m
    rw [h3] at h4
    simp [Nat.ofDigits] at h4
    omega
  · rw [if_neg hm, if_neg hn] at h
    have h2 : (Nat.digits 10 m).reverse = (Nat.digits 10 n).reverse :=
      digits_map_inj _ _ (digits_lt_ten m) (digits_lt_ten n) h
    have h3 : Nat.digits 10 m = Nat.digits 10 n := by
      have := congrArg List.reverse h2
      simpa using this
    have h4 := Nat.ofDigits_digits 10 m
    rw [h3, Nat.ofDigits_digits] at h4
    exact h4.symm

/-- String data of an append. -/
theorem data_append (a b : String) : (a ++ b).data = a.data ++ b.data := rfl

/-- Strings with equal character data are equal. -/
theorem string_data_eq {a b : String} (h : a.data = b.data) : a = b := by
  cases a
  cases b
  exact congrArg String.mk h

/-- The rendering of a positive number is never empty. -/
theorem natChars_ne_nil (n : Nat) : natChars n ≠ [] := by
  rw [natChars_eq]
  by_cases h0 : n = 0
  · simp [h0]
  · rw [if_neg h0]
    intro hc
    have h3 : Nat.digits 10 n = [] := by
      have := congrArg List.reverse (List.map_eq_nil_iff.mp hc)
      simpa using this
    have h4 := Nat.ofDigits_digits 10 n
    rw [h3] at h4
    simp [Nat.ofDigits] at h4
    omega

/-- Stem and suffix of a name concatenate back to the name. -/
theorem stem_suffix_append (name : String) :
    (pyStem name).data ++ (pySuffix name).data = name.data :=
  List.take_append_drop (pySplitIdx name.toList) name.data

/-- Character data of a collision candidate name, `n ≥ 1`. -/
theorem candName_succ_data (name : String) (k : Nat) :
    (candName name (k + 1)).data =
      ((pyStem name).data ++ "_recovered_".data) ++ (natChars (k + 1) ++ (pySuffix name).data) := by
  show ((pyStem name ++ "_recovered_" ++ natStr (k + 1) ++ pySuffix name)).data = _
  rw [data_append, data_append, data_append]
  simp [natStr, List.append_assoc]

/-- Distinct collision-resolution steps try distinct destination names. -/
theorem candName_inj (name : String) : Function.Injective (candName name) := by
  intro a b h
  have hd := congrArg String.data h
  match a, b with
  | 0, 0 => rfl
  | 0, k + 1 =>
    exfalso
    rw [candName] at hd
    rw [candName_succ_data] at hd
    have hlen := congrArg List.length hd
    have hstem := congrArg List.length (stem_suffix_append name)
    have hnz := natChars_ne_nil (k + 1)
    have : 1 ≤ (natChars (k + 1)).length := by
      cases hne : natChars (k + 1) with
      | nil => exact absurd hne hnz
      | cons c t => simp [hne]
    simp only [List.length_append] at hlen hstem
    have h11 : "_recovered_".data.length = 11 := by decide
    omega
  | j + 1, 0 =>
    exfalso
    rw [candName] at hd
    rw [candName_succ_data] at hd
    have hlen := congrArg List.length hd
    have hstem := congrArg List.length (stem_suffix_append name)
    have hnz := natChars_ne_nil (j + 1)
    have : 1 ≤ (natChars (j + 1)).length := by
      cases hne : natChars (j + 1) with
      | nil => exact absurd hne hnz
      | cons c t => simp [hne]
    simp only [List.length_append] at hlen hstem
    have h11 : "_recovered_".data.length = 11 := by decide
    omega
  | j + 1, k + 1 =>
    rw [candName_succ_data, candName_succ_data] at hd
    have h1 := List.append_cancel_left hd
    have h2 := List.append_cancel_right h1
    exact congrArg (· + 1) (Nat.succ_injective (natChars_injective h2))

/-- Distinct collision-resolution steps try distinct destination paths. -/
theorem candPath_inj (destDir name : String) : Function.Injective (candPath destDir name) := by
  intro a b h
  apply candName_inj name
  apply string_data_eq
  have hd := congrArg String.data h
  rw [candPath, candPath, data_append, data_append] at hd
  exact List.append_cancel_left hd

/-- A list of pairwise-distinct paths that all exist in the filesystem is no
longer than the file table. -/
theorem nodup_subset_length {l1 l2 : List String} (h : l1.Nodup) (s : l1 ⊆ l2) :
    l1.length ≤ l2.length := by
  classical
  calc l1.length = l1.toFinset.card := (List.toFinset_card_of_nodup h).symm
    _ ≤ l2.toFinset.card := Finset.card_le_card (fun x hx => by
        simp only [List.mem_toFinset] at hx ⊢
        exact s hx)
    _ ≤ l2.length := l2.toFinset_card_le

/-- If the first `n` destination candidates are all occupied, the file table
has at least `n` entries. -/
theorem taken_candidates_bound (fs : SimpleFS) (destDir name : String) (n : Nat)
    (htaken : ∀ k, k < n → fs.containsPath (candPath destDir name k) = true) :
    n ≤ fs.entries.length := by
  have hsub : (List.range n).map (candPath destDir name) ⊆ fs.entries.map Prod.fst := by
    intro x hx
    rcases List.mem_map.mp hx with ⟨k, hk, rfl⟩
    have hc := htaken k (List.mem_range.mp hk)
    rw [SimpleFS.containsPath, List.any_eq_true] at hc
    rcases hc with ⟨e, he, hb⟩
    exact List.mem_map.mpr ⟨e, he, beq_iff_eq.mp hb⟩
  have hnd : ((List.range n).map (candPath destDir name)).Nodup :=
    (List.nodup_range n).map (candPath_inj destDir name)
  have := nodup_subset_length hnd hsub
  simpa using this

/-- The collision loop, run with fuel covering the remaining distance, stops
at the first free candidate. -/
theorem findFreeIdx_go (fs : SimpleFS) (destDir name : String) :
    ∀ fuel k n : Nat, k ≤ n → n - k < fuel →
    (∀ j, k ≤ j → j < n → fs.containsPath (candPath destDir name j) = true) →
    fs.containsPath (candPath destDir name n) = false →
    findFreeIdx fs destDir name fuel k = n := by
  intro fuel
  induction fuel with
  | zero => intro k n _ h2 _ _; omega
  | succ fuel ih =>
    intro k n hkn hfuel htaken hfree
    rw [findFreeIdx]
    by_cases hk : k = n
    · subst hk
      simp [hfree]
    · have hk2 : fs.containsPath (candPath destDir name k) = true :=
        htaken k le_rfl (by omega)
      simp only [hk2, if_true]
      exact ih (k + 1) n (by omega) (by omega) (fun j hj1 hj2 => htaken j (by omega) hj2) hfree

/-- Writing to a fresh path makes it exist with exactly the written size. -/
theorem insertFile_fresh (fs : SimpleFS) (p : String) (v : Nat)
    (hfree : fs.containsPath p = false) :
    (fs.insertFile p v).containsPath p = true ∧ (fs.insertFile p v).fileSize p = v := by
  rw [SimpleFS.insertFile, hfree]
  simp only [Bool.false_eq_true, if_false]
  constructor
  · rw [SimpleFS.containsPath, List.any_eq_true]
    exact ⟨(p, v), by simp⟩
  · rw [SimpleFS.fileSize, List.find?_append]
    have hany : fs.entries.any (fun e => e.1 == p) = false := hfree
    have hnone : fs.entries.find? (fun e => e.1 == p) = none := by
      rw [List.find?_eq_none]
      intro e he
      have h2 := List.any_eq_false.mp hany e he
      simp_all
    rw [hnone]
    simp

/-- C7: when `dest_dir/name` is occupied and the candidates
`_recovered_1 … _recovered_(n−1)` are occupied while `_recovered_n` is free,
`restore_file` on an existing source writes exactly to the `n`-th candidate,
succeeds precisely when the copied size is positive, and on success the
destination exists with positive size (checked before returning). -/
theorem c7_restore_collision_and_verify (fs : SimpleFS) (name srcPath destDir : String) (n : Nat)
    (hsrc : fs.containsPath srcPath = true)
    (hn : 1 ≤ n)
    (htaken : ∀ k, k < n → fs.containsPath (candPath destDir name k) = true)
    (hfree : fs.containsPath (candPath destDir name n) = false) :
    (restoreFile fs name srcPath destDir).2 =
      fs.insertFile (candPath destDir name n) (fs.fileSize srcPath) ∧
    ((restoreFile fs name srcPath destDir).1 = true ↔ 0 < fs.fileSize srcPath) ∧
    ((restoreFile fs name srcPath destDir).1 = true →
      (restoreFile fs name srcPath destDir).2.containsPath (candPath destDir name n) = true ∧
      0 < (restoreFile fs name srcPath destDir).2.fileSize (candPath destDir name n)) := by
  have hbound : n ≤ fs.entries.length := taken_candidates_bound fs destDir name n htaken
  have hidx : findFreeIdx fs destDir name (fs.entries.length + 1) 0 = n :=
    findFreeIdx_go fs destDir name (fs.entries.length + 1) 0 n (by omega) (by omega)
      (fun j _ hj2 => htaken j hj2) hfree
  have hins := insertFile_fresh fs (candPath destDir name n) (fs.fileSize srcPath) hfree
  by_cases hv : 0 < fs.fileSize srcPath
  · have hcond : ((fs.insertFile (candPath destDir name n)
          (fs.fileSize srcPath)).containsPath (candPath destDir name n)
        && decide (0 < (fs.insertFile (candPath destDir name n)
          (fs.fileSize srcPath)).fileSize (candPath destDir name n))) = true := by
      rw [hins.1, hins.2]
      simp only [Bool.true_and, decide_eq_true_eq]
      exact hv
    have hres : restoreFile fs name srcPath destDir =
        (true, fs.insertFile (candPath destDir name n) (fs.fileSize srcPath)) := by
      rw [restoreFile]
      simp only [hsrc, if_true, hidx, restoreCopy, hcond]
    rw [hres]
    refine ⟨rfl, by simp [hv], fun _ => ⟨hins.1, ?_⟩⟩
    rw [hins.2]
    exact hv
  · have hcond : ((fs.insertFile (candPath destDir name n)
          (fs.fileSize srcPath)).containsPath (candPath destDir name n)
        && decide (0 < (fs.insertFile (candPath destDir name n)
          (fs.fileSize srcPath)).fileSize (candPath destDir name n))) = false := by
      rw [hins.1, hins.2]
      simp only [Bool.true_and, decide_eq_true_eq]
      simpa using hv
    have hres : restoreFile fs name srcPath destDir =
        (false, fs.insertFile (candPath destDir name n) (fs.fileSize srcPath)) := by
      rw [restoreFile]
      simp only [hsrc, if_true, hidx, restoreCopy, hcond]
      simp
    rw [hres]
    exact ⟨rfl, by simpa using hv, fun hc => by simp at hc⟩

/-- C7 witness: with source `src` of size 5 and both `d/a.txt` and
`d/a_recovered_1.txt` occupied, restore writes `d/a_recovered_2.txt` and
succeeds, the destination existing with positive size. -/
theorem c7_restore_collision_and_verify_witness :
    ((restoreFile ⟨[("src", 5), ("d/a.txt", 1), ("d/a_recovered_1.txt", 2)]⟩ "a.txt" "src" "d").2 =
      SimpleFS.insertFile ⟨[("src", 5), ("d/a.txt", 1), ("d/a_recovered_1.txt", 2)]⟩
        (candPath "d" "a.txt" 2)
        (SimpleFS.fileSize ⟨[("src", 5), ("d/a.txt", 1), ("d/a_recovered_1.txt", 2)]⟩ "src")) ∧
    ((restoreFile ⟨[("src", 5), ("d/a.txt", 1), ("d/a_recovered_1.txt", 2)]⟩ "a.txt" "src" "d").1 =
        true ↔
      0 < SimpleFS.fileSize ⟨[("src", 5), ("d/a.txt", 1), ("d/a_recovered_1.txt", 2)]⟩ "src") ∧
    ((restoreFile ⟨[("src", 5), ("d/a.txt", 1), ("d/a_recovered_1.txt", 2)]⟩ "a.txt" "src" "d").1 =
        true →
      (restoreFile ⟨[("src", 5), ("d/a.txt", 1), ("d/a_recovered_1.txt", 2)]⟩ "a.txt" "src"
            "d").2.containsPath (candPath "d" "a.txt" 2) = true ∧
      0 < (restoreFile ⟨[("src", 5), ("d/a.txt", 1), ("d/a_recovered_1.txt", 2)]⟩ "a.txt" "src"
            "d").2.fileSize (candPath "d" "a.txt" 2)) :=
  c7_restore_collision_and_verify ⟨[("src", 5), ("d/a.txt", 1), ("d/a_recovered_1.txt", 2)]⟩
    "a.txt" "src" "d" 2 (by decide) (by decide)
    (by decide)
    (by decide)

end OopsieDaisy
